import Mathlib

/-!
Verification of the cached-fetcher core and the presentation helpers of the
Chelsea FC statistics bot.

The repository's `src/app.py` calls `fetch_with_cache(url, cache_key,
max_age_hours)` imported from a `service` module whose source is not part of
the tree; the cached fetcher, its persistent key-value store and its HTTP
fetcher are therefore modelled here from the specification (sections 3, 4.1,
4.2 and 4.3 of the design document).  The pagination, de-duplication and
result-icon logic are translated directly from `src/app.py`.
-/

/-! ## Data model of the cached fetcher (modelled from the spec) -/

/-- Modelled from the spec (section 3): a `CacheEntry` holds the last
successfully fetched payload and the timestamp of when it was retrieved.
Timestamps are natural numbers (seconds since some epoch). -/
structure CacheEntry (α : Type) where
  payload : α
  fetched_at : Nat
deriving Repr, DecidableEq

/-- Modelled from the spec (section 4.1): the persistent key-value store,
a durable mapping from string keys to cache entries.  The `healthy` flag
models availability of the underlying durable medium: when it is `false`
every store operation fails with a `StorageError`. -/
structure Store (α : Type) where
  entries : List (String × CacheEntry α)
  healthy : Bool
deriving Repr

/-- Modelled from the spec (section 4.1): `StorageError` is raised when the
underlying durable medium is unavailable. -/
inductive StorageError where
  | storageUnavailable
deriving Repr, DecidableEq

/-- Modelled from the spec (section 4.2): the typed failures of the HTTP
fetcher. -/
inductive FetchError where
  | Unreachable
  | BadStatus (code : Nat)
  | MalformedBody
deriving Repr, DecidableEq

/-- Modelled from the spec (section 4.3): the `source` discriminator of a
`FetchResult`. -/
inductive Source where
  | network
  | cache
  | none
deriving Repr, DecidableEq

/-- Modelled from the spec (section 4.3):
`FetchResult = \x7b success : bool, data : Option JSONValue, source \x7d`. -/
structure FetchResult (α : Type) where
  success : Bool
  data : Option α
  source : Source
deriving Repr, DecidableEq

/-- Pure lookup in the store's entry list (the in-memory view of the durable
mapping).  A key maps to at most one entry; `lookup` returns the first
binding. -/
def Store.lookup {α : Type} (s : Store α) (k : String) : Option (CacheEntry α) :=
  (s.entries.find? (fun p => p.1 == k)).map (fun p => p.2)

/-- Modelled from the spec (section 4.1):
`get(key) -> Option<CacheEntry>`; returns the entry if one exists and never
raises for a missing key, but surfaces `StorageError` when the durable
medium is unavailable. -/
def Store.get {α : Type} (s : Store α) (k : String) :
    Except StorageError (Option (CacheEntry α)) :=
  if s.healthy then Except.ok (s.lookup k) else Except.error StorageError.storageUnavailable

/-- Modelled from the spec (section 4.1): `put(key, payload, fetched_at)`
fully replaces any existing entry for `key`; fails with `StorageError` when
the durable medium is unavailable. -/
def Store.put {α : Type} (s : Store α) (k : String) (payload : α) (fetched_at : Nat) :
    Except StorageError (Store α) :=
  if s.healthy then
    Except.ok { s with
      entries := (k, CacheEntry.mk payload fetched_at) ::
        s.entries.filter (fun p => !(p.1 == k)) }
  else Except.error StorageError.storageUnavailable

/-- Modelled from the spec (section 4.3): the core orchestrator
`fetch_with_cache(url, cache_key, max_age)`, whose source (`service`
module) is absent from the tree.  The single network attempt is passed in
as `fetch : Except FetchError α` (the outcome the HTTP fetcher would
produce for the URL).  The result triple is the `FetchResult`, the store
after the call, and a flag recording whether the network fetcher was
invoked. -/
def fetch_with_cache {α : Type} (s : Store α) (cacheKey : String)
    (maxAge now : Nat) (fetch : Except FetchError α) :
    Except StorageError (FetchResult α × Store α × Bool) :=
  match s.get cacheKey with
  | Except.error e => Except.error e
  | Except.ok (some entry) =>
    if now - entry.fetched_at < maxAge then
      Except.ok (FetchResult.mk true (some entry.payload) Source.cache, s, false)
    else
      match fetch with
      | Except.ok payload =>
        match s.put cacheKey payload now with
        | Except.error e => Except.error e
        | Except.ok s2 =>
          Except.ok (FetchResult.mk true (some payload) Source.network, s2, true)
      | Except.error _ =>
        Except.ok (FetchResult.mk true (some entry.payload) Source.cache, s, true)
  | Except.ok Option.none =>
    match fetch with
    | Except.ok payload =>
      match s.put cacheKey payload now with
      | Except.error e => Except.error e
      | Except.ok s2 =>
        Except.ok (FetchResult.mk true (some payload) Source.network, s2, true)
    | Except.error _ =>
      Except.ok (FetchResult.mk false Option.none Source.none, s, true)

/-! ## Claims C1–C3: freshness, fallback, total miss -/

/-- Claim C1: for every key whose cache entry satisfies
`now - fetched_at < max_age`, `fetch_with_cache` returns
`{success: true, data: entry.payload, source: "cache"}` and never invokes
the HTTP fetcher (the returned flag is `false` and the result does not
depend on the network outcome `fetch`). -/
theorem freshness_property {α : Type} (s : Store α) (k : String)
    (maxAge now : Nat) (e : CacheEntry α) (fetch : Except FetchError α)
    (hh : s.healthy = true) (he : s.lookup k = some e)
    (hfresh : now - e.fetched_at < maxAge) :
    fetch_with_cache s k maxAge now fetch =
      Except.ok (FetchResult.mk true (some e.payload) Source.cache, s, false) := by
  simp [fetch_with_cache, Store.get, hh, he, hfresh]

/-- Claim C1 witness: a concrete fresh entry is served from the cache. -/
theorem freshness_property_witness :
    fetch_with_cache (Store.mk [("fixtures", CacheEntry.mk 42 100)] true)
        "fixtures" 6 103 (Except.error FetchError.Unreachable) =
      Except.ok (FetchResult.mk true (some 42) Source.cache,
        Store.mk [("fixtures", CacheEntry.mk 42 100)] true, false) :=
  freshness_property (Store.mk [("fixtures", CacheEntry.mk 42 100)] true)
    "fixtures" 6 103 (CacheEntry.mk 42 100) (Except.error FetchError.Unreachable)
    rfl rfl (by decide)

/-- Claim C2: for every key with an existing (possibly stale) entry, if the
entry fails the freshness check and the network fetch fails with any
`FetchError`, `fetch_with_cache` returns
`{success: true, data: entry.payload, source: "cache"}`. -/
theorem fallback_property {α : Type} (s : Store α) (k : String)
    (maxAge now : Nat) (e : CacheEntry α) (err : FetchError)
    (hh : s.healthy = true) (he : s.lookup k = some e)
    (hstale : ¬ (now - e.fetched_at < maxAge)) :
    fetch_with_cache s k maxAge now (Except.error err) =
      Except.ok (FetchResult.mk true (some e.payload) Source.cache, s, true) := by
  simp [fetch_with_cache, Store.get, hh, he, hstale]

/-- Claim C2 witness: a concrete stale entry is served when the network
fails. -/
theorem fallback_property_witness :
    fetch_with_cache (Store.mk [("recent_results", CacheEntry.mk 7 10)] true)
        "recent_results" 6 100 (Except.error FetchError.MalformedBody) =
      Except.ok (FetchResult.mk true (some 7) Source.cache,
        Store.mk [("recent_results", CacheEntry.mk 7 10)] true, true) :=
  fallback_property (Store.mk [("recent_results", CacheEntry.mk 7 10)] true)
    "recent_results" 6 100 (CacheEntry.mk 7 10) FetchError.MalformedBody
    rfl rfl (by decide)

/-- Claim C3: for every key with no cache entry, if the network fetch
fails, `fetch_with_cache` returns exactly
`{success: false, data: None, source: "none"}` as structured data (an
`Except.ok` value, not a raised error). -/
theorem total_miss_property {α : Type} (s : Store α) (k : String)
    (maxAge now : Nat) (err : FetchError)
    (hh : s.healthy = true) (hnone : s.lookup k = Option.none) :
    fetch_with_cache s k maxAge now (Except.error err) =
      Except.ok (FetchResult.mk false Option.none Source.none, s, true) := by
  simp [fetch_with_cache, Store.get, hh, hnone]

/-- Claim C3 witness: a concrete empty store and a failing fetch yield the
total-miss result. -/
theorem total_miss_property_witness :
    fetch_with_cache (Store.mk ([] : List (String × CacheEntry Nat)) true)
        "player_stats_99" 24 50 (Except.error (FetchError.BadStatus 500)) =
      Except.ok (FetchResult.mk false Option.none Source.none,
        Store.mk [] true, true) :=
  total_miss_property (Store.mk [] true) "player_stats_99" 24 50
    (FetchError.BadStatus 500) rfl rfl

/-! ## Claims C4, C5, C7: refresh, error propagation, store get contract -/

/-- After a successful `put` on a healthy store the key maps to the new
entry and the store stays healthy. -/
theorem Store.put_ok {α : Type} (s : Store α) (k : String) (p : α) (t : Nat)
    (hh : s.healthy = true) :
    ∃ s2, s.put k p t = Except.ok s2 ∧ s2.healthy = true ∧
      s2.lookup k = some (CacheEntry.mk p t) := by
  refine ⟨{ s with entries := (k, CacheEntry.mk p t) ::
    s.entries.filter (fun q => !(q.1 == k)) }, ?_, ?_, ?_⟩
  · simp [Store.put, hh]
  · exact hh
  · simp [Store.lookup, List.find?]

/-- Claim C4: for every key whose entry is absent or older than `max_age`,
a successful network fetch first stores the payload via
`put(cache_key, payload, now)` and returns
`{success: true, data: payload, source: "network"}`; a subsequent call for
the same key within `max_age` returns that same payload with
`source == "cache"` without invoking the network. -/
theorem refresh_property {α : Type} (s : Store α) (k : String)
    (maxAge now : Nat) (p : α)
    (hh : s.healthy = true)
    (hmiss : ∀ e, s.lookup k = some e → ¬ (now - e.fetched_at < maxAge)) :
    ∃ s2, s.put k p now = Except.ok s2 ∧
      fetch_with_cache s k maxAge now (Except.ok p) =
        Except.ok (FetchResult.mk true (some p) Source.network, s2, true) ∧
      ∀ (now2 : Nat) (fetch2 : Except FetchError α), now2 - now < maxAge →
        fetch_with_cache s2 k maxAge now2 fetch2 =
          Except.ok (FetchResult.mk true (some p) Source.cache, s2, false) := by
  obtain ⟨s2, hput, hh2, hl2⟩ := Store.put_ok s k p now hh
  refine ⟨s2, hput, ?_, ?_⟩
  · cases hl : s.lookup k with
    | none => simp [fetch_with_cache, Store.get, hh, hl, hput]
    | some e =>
      have hstale := hmiss e hl
      simp [fetch_with_cache, Store.get, hh, hl, hstale, hput]
  · intro now2 fetch2 hfresh
    simp [fetch_with_cache, Store.get, hh2, hl2, hfresh]

/-- Claim C4 witness: concrete refresh of a stale entry followed by a fresh
cache hit on the stored payload. -/
theorem refresh_property_witness :
    ∃ s2, (Store.mk [("fixtures", CacheEntry.mk 5 0)] true).put "fixtures" 9 100 =
        Except.ok s2 ∧
      fetch_with_cache (Store.mk [("fixtures", CacheEntry.mk 5 0)] true)
          "fixtures" 24 100 (Except.ok 9) =
        Except.ok (FetchResult.mk true (some 9) Source.network, s2, true) ∧
      ∀ (now2 : Nat) (fetch2 : Except FetchError Nat), now2 - 100 < 24 →
        fetch_with_cache s2 "fixtures" 24 now2 fetch2 =
          Except.ok (FetchResult.mk true (some 9) Source.cache, s2, false) :=
  refresh_property (Store.mk [("fixtures", CacheEntry.mk 5 0)] true)
    "fixtures" 24 100 9 rfl
    (by intro e he; simp [Store.lookup, List.find?] at he; subst he; decide)

/-- Claim C5: with a healthy store, `fetch_with_cache` never raises for any
network-layer outcome (every call returns an `Except.ok` result), while
with a broken store the `StorageError` is propagated to the caller. -/
theorem error_propagation {α : Type} (s : Store α) (k : String)
    (maxAge now : Nat) :
    (s.healthy = true → ∀ fetch : Except FetchError α,
      ∃ r, fetch_with_cache s k maxAge now fetch = Except.ok r) ∧
    (s.healthy = false → ∀ fetch : Except FetchError α,
      fetch_with_cache s k maxAge now fetch =
        Except.error StorageError.storageUnavailable) := by
  constructor
  · intro hh fetch
    cases hl : s.lookup k with
    | none =>
      cases fetch with
      | ok payload =>
        obtain ⟨s2, hput, _, _⟩ := Store.put_ok s k payload now hh
        exact ⟨(FetchResult.mk true (some payload) Source.network, s2, true),
          by simp [fetch_with_cache, Store.get, hh, hl, hput]⟩
      | error err =>
        exact ⟨(FetchResult.mk false Option.none Source.none, s, true),
          by simp [fetch_with_cache, Store.get, hh, hl]⟩
    | some e =>
      by_cases hfresh : now - e.fetched_at < maxAge
      · exact ⟨(FetchResult.mk true (some e.payload) Source.cache, s, false),
          by simp [fetch_with_cache, Store.get, hh, hl, hfresh]⟩
      · cases fetch with
        | ok payload =>
          obtain ⟨s2, hput, _, _⟩ := Store.put_ok s k payload now hh
          exact ⟨(FetchResult.mk true (some payload) Source.network, s2, true),
            by simp [fetch_with_cache, Store.get, hh, hl, hfresh, hput]⟩
        | error err =>
          exact ⟨(FetchResult.mk true (some e.payload) Source.cache, s, true),
            by simp [fetch_with_cache, Store.get, hh, hl, hfresh]⟩
  · intro hh fetch
    simp [fetch_with_cache, Store.get, hh]

/-- Claim C5 witness: with a healthy empty store a failing fetch still
returns a structured result, and with a broken store the storage error is
propagated. -/
theorem error_propagation_witness :
    (∃ r, fetch_with_cache (Store.mk ([] : List (String × CacheEntry Nat)) true)
        "fixtures" 1 0 (Except.error FetchError.Unreachable) = Except.ok r) ∧
    fetch_with_cache (Store.mk ([] : List (String × CacheEntry Nat)) false)
        "fixtures" 1 0 (Except.error FetchError.Unreachable) =
      Except.error StorageError.storageUnavailable :=
  ⟨(error_propagation (Store.mk [] true) "fixtures" 1 0).1 rfl
      (Except.error FetchError.Unreachable),
   (error_propagation (Store.mk [] false) "fixtures" 1 0).2 rfl
      (Except.error FetchError.Unreachable)⟩

/-- Claim C7: `get(key)` returns an `Option`: `some entry` when an entry
exists and `none` when it does not, never raising for a missing key; the
missing-key outcome (`Except.ok none`) is distinct from the `StorageError`
of a broken durable medium (`Except.error`). -/
theorem get_contract {α : Type} (s : Store α) (k : String) :
    (s.healthy = true → ∀ e, s.lookup k = some e → s.get k = Except.ok (some e)) ∧
    (s.healthy = true → s.lookup k = Option.none → s.get k = Except.ok Option.none) ∧
    (s.healthy = false → s.get k = Except.error StorageError.storageUnavailable) := by
  refine ⟨?_, ?_, ?_⟩
  · intro hh e he
    simp [Store.get, hh, he]
  · intro hh he
    simp [Store.get, hh, he]
  · intro hh
    simp [Store.get, hh]

/-- Claim C7 witness: a present key, a missing key and a broken medium on
concrete stores. -/
theorem get_contract_witness :
    (Store.mk [("fixtures", CacheEntry.mk (1 : Nat) 0)] true).get "fixtures" =
      Except.ok (some (CacheEntry.mk 1 0)) ∧
    (Store.mk [("fixtures", CacheEntry.mk (1 : Nat) 0)] true).get "table" =
      Except.ok Option.none ∧
    (Store.mk [("fixtures", CacheEntry.mk (1 : Nat) 0)] false).get "fixtures" =
      Except.error StorageError.storageUnavailable :=
  ⟨(get_contract (Store.mk [("fixtures", CacheEntry.mk (1 : Nat) 0)] true)
      "fixtures").1 rfl (CacheEntry.mk 1 0) rfl,
   (get_contract (Store.mk [("fixtures", CacheEntry.mk (1 : Nat) 0)] true)
      "table").2.1 rfl (by decide),
   (get_contract (Store.mk [("fixtures", CacheEntry.mk (1 : Nat) 0)] false)
      "fixtures").2.2 rfl⟩

/-! ## Claim C6: monotonicity of `fetched_at` across successive writes -/

/-- Searching a filtered list finds the same element when the filter keeps
everything the search predicate accepts. -/
theorem find?_filter_of_imp {β : Type} (p q : β → Bool) :
    ∀ l : List β, (∀ x, p x = true → q x = true) →
      (l.filter q).find? p = l.find? p := by
  intro l h
  induction l with
  | nil => rfl
  | cons a l ih =>
    by_cases hq : q a = true
    · by_cases hp : p a = true
      · rw [List.filter_cons_of_pos hq, List.find?_cons_of_pos _ hp,
          List.find?_cons_of_pos _ hp]
      · rw [List.filter_cons_of_pos hq, List.find?_cons_of_neg _ (by simp [hp]),
          List.find?_cons_of_neg _ (by simp [hp]), ih]
    · have hp : p a = false := by
        cases hpa : p a with
        | true => exact absurd (h a hpa) hq
        | false => rfl
      rw [List.filter_cons_of_neg (by simp [hq]),
        List.find?_cons_of_neg _ (by simp [hp]), ih]

/-- A successful `put` yields a healthy store where the written key maps to
the new entry and every other key is untouched. -/
theorem Store.put_lookup {α : Type} (s s2 : Store α) (k : String) (p : α)
    (t : Nat) (hput : s.put k p t = Except.ok s2) :
    s2.healthy = true ∧ s2.lookup k = some (CacheEntry.mk p t) ∧
      ∀ k2, k2 ≠ k → s2.lookup k2 = s.lookup k2 := by
  unfold Store.put at hput
  by_cases hh : s.healthy
  · rw [if_pos hh] at hput
    cases hput
    refine ⟨hh, ?_, ?_⟩
    · simp [Store.lookup, List.find?]
    · intro k2 hne
      have hbk : (k == k2) = false := beq_eq_false_iff_ne.mpr (Ne.symm hne)
      unfold Store.lookup
      dsimp only
      rw [List.find?_cons_of_neg _ (by simp [hbk]), find?_filter_of_imp]
      intro x hx
      have hxk2 : x.1 = k2 := eq_of_beq hx
      have hxk : (x.1 == k) = false :=
        beq_eq_false_iff_ne.mpr (fun hk => hne (hxk2.symm.trans hk))
      simp [hxk]
  · rw [if_neg hh] at hput
    cases hput

/-- The store returned by `fetch_with_cache` is either the input store
unchanged or the result of a single `put` of some payload at time `now`. -/
theorem fetch_with_cache_store_cases {α : Type} (s : Store α) (key : String)
    (maxAge now : Nat) (fetch : Except FetchError α) (r : FetchResult α)
    (s2 : Store α) (b : Bool)
    (h : fetch_with_cache s key maxAge now fetch = Except.ok (r, s2, b)) :
    s2 = s ∨ ∃ p, s.put key p now = Except.ok s2 := by
  unfold fetch_with_cache at h
  split at h
  · cases h
  · split at h
    · simp only [Except.ok.injEq, Prod.mk.injEq] at h
      exact Or.inl h.2.1.symm
    · split at h
      · rename_i payload
        split at h
        · cases h
        · rename_i s3 hput
          simp only [Except.ok.injEq, Prod.mk.injEq] at h
          exact Or.inr ⟨payload, h.2.1 ▸ hput⟩
      · simp only [Except.ok.injEq, Prod.mk.injEq] at h
        exact Or.inl h.2.1.symm
  · split at h
    · rename_i payload
      split at h
      · cases h
      · rename_i s3 hput
        simp only [Except.ok.injEq, Prod.mk.injEq] at h
        exact Or.inr ⟨payload, h.2.1 ▸ hput⟩
    · simp only [Except.ok.injEq, Prod.mk.injEq] at h
      exact Or.inl h.2.1.symm

/-- One logical request against the cached fetcher: its cache key, maximum
age, the wall-clock time of the call and the outcome the HTTP fetcher
would produce. -/
structure FetchOp (α : Type) where
  key : String
  maxAge : Nat
  now : Nat
  fetch : Except FetchError α

/-- The store after serving one request (a failed call leaves the store
unchanged). -/
def runFetch {α : Type} (s : Store α) (op : FetchOp α) : Store α :=
  match fetch_with_cache s op.key op.maxAge op.now op.fetch with
  | Except.ok (_, s2, _) => s2
  | Except.error _ => s

/-- The store after serving a sequence of requests in order. -/
def runAll {α : Type} (s : Store α) (ops : List (FetchOp α)) : Store α :=
  ops.foldl runFetch s

/-- All entries of the store were fetched no later than time `t` (the
clock never ran backwards relative to the stored timestamps). -/
def timeOK {α : Type} (s : Store α) (t : Nat) : Prop :=
  ∀ k e, s.lookup k = some e → e.fetched_at ≤ t

/-- Serving one request at a time bounding all stored timestamps keeps the
time bound and never decreases any key's `fetched_at`. -/
theorem runFetch_step {α : Type} (s : Store α) (op : FetchOp α)
    (ht : timeOK s op.now) :
    timeOK (runFetch s op) op.now ∧
      ∀ k e, s.lookup k = some e →
        ∃ e2, (runFetch s op).lookup k = some e2 ∧
          e.fetched_at ≤ e2.fetched_at := by
  cases hres : fetch_with_cache s op.key op.maxAge op.now op.fetch with
  | error e =>
    have hr : runFetch s op = s := by simp [runFetch, hres]
    rw [hr]
    exact ⟨ht, fun k e2 he => ⟨e2, he, Nat.le_refl _⟩⟩
  | ok trip =>
    obtain ⟨r, s2, b⟩ := trip
    have hr : runFetch s op = s2 := by simp [runFetch, hres]
    rw [hr]
    rcases fetch_with_cache_store_cases s op.key op.maxAge op.now op.fetch
        r s2 b hres with heq | ⟨p, hput⟩
    · subst heq
      exact ⟨ht, fun k e2 he => ⟨e2, he, Nat.le_refl _⟩⟩
    · obtain ⟨hh2, hself, hother⟩ := Store.put_lookup s s2 op.key p op.now hput
      constructor
      · intro k e2 he2
        by_cases hk : k = op.key
        · subst hk
          rw [hself] at he2
          cases he2
          exact Nat.le_refl _
        · rw [hother k hk] at he2
          exact ht k e2 he2
      · intro k e he
        by_cases hk : k = op.key
        · subst hk
          exact ⟨CacheEntry.mk p op.now, hself, ht op.key e he⟩
        · exact ⟨e, by rw [hother k hk]; exact he, Nat.le_refl _⟩

/-- Claim C6: across every sequence of requests whose call times are
non-decreasing (and start no earlier than every timestamp already stored),
the `fetched_at` recorded for any key is monotonically non-decreasing — a
later successful write never records an earlier `fetched_at` than the
entry it replaces. -/
theorem fetched_at_monotone {α : Type} (ops : List (FetchOp α)) :
    ∀ (s : Store α) (t : Nat), timeOK s t →
      List.Chain (fun a b => a ≤ b) t (ops.map FetchOp.now) →
      ∀ (k : String) (e e2 : CacheEntry α), s.lookup k = some e →
        (runAll s ops).lookup k = some e2 →
        e.fetched_at ≤ e2.fetched_at := by
  induction ops with
  | nil =>
    intro s t ht hchain k e e2 he he2
    simp only [runAll, List.foldl_nil] at he2
    rw [he] at he2
    cases he2
    exact Nat.le_refl _
  | cons op rest ih =>
    intro s t ht hchain k e e2 he he2
    rw [List.map_cons, List.chain_cons] at hchain
    obtain ⟨hle, hchain2⟩ := hchain
    have ht2 : timeOK s op.now := fun k2 e3 h3 => Nat.le_trans (ht k2 e3 h3) hle
    obtain ⟨htok, hstep⟩ := runFetch_step s op ht2
    obtain ⟨e3, he3, hle3⟩ := hstep k e he
    have hrun : runAll s (op :: rest) = runAll (runFetch s op) rest := by
      simp [runAll, List.foldl_cons]
    rw [hrun] at he2
    exact Nat.le_trans hle3 (ih (runFetch s op) op.now htok hchain2 k e3 e2 he3 he2)

/-- Claim C6 witness: a concrete stale entry with `fetched_at = 2` is
refreshed at time 5 and the stored timestamp does not decrease. -/
theorem fetched_at_monotone_witness :
    2 ≤ (CacheEntry.mk (9 : Nat) 5).fetched_at :=
  fetched_at_monotone [FetchOp.mk "fixtures" 1 5 (Except.ok 9)]
    (Store.mk [("fixtures", CacheEntry.mk 3 2)] true) 2
    (fun k e he => by
      simp only [Store.lookup, List.find?] at he
      by_cases hb : (("fixtures" : String) == k) = true
      · rw [hb] at he
        simp only [Option.map_some] at he
        cases he
        exact Nat.le_refl _
      · rw [Bool.not_eq_true] at hb
        rw [hb] at he
        cases he)
    (List.Chain.cons (by decide) List.Chain.nil)
    "fixtures" (CacheEntry.mk 3 2) (CacheEntry.mk 9 5)
    (by decide) (by decide)

/-! ## Claim C8: pagination of the fixtures view (`src/app.py`, fixtures) -/

/-- From `src/app.py` (fixtures): `matches_per_page = 3`. -/
def matches_per_page : Nat := 3

/-- From `src/app.py` (fixtures):
`total_pages = (total_matches + matches_per_page - 1) // matches_per_page`. -/
def total_pages (total_matches : Nat) : Nat :=
  (total_matches + matches_per_page - 1) / matches_per_page

/-- From `src/app.py` (fixtures):
`page_matches = all_matches[start_idx:end_idx]` with
`start_idx = (page - 1) * matches_per_page` and
`end_idx = start_idx + matches_per_page`. -/
def page_matches {α : Type} (all_matches : List α) (page : Nat) : List α :=
  (all_matches.drop ((page - 1) * matches_per_page)).take matches_per_page

/-- From `src/app.py` (fixtures): `enumerate(page_matches, start_idx + 1)`
pairs each match of the page with its display number. -/
def numbered_page {α : Type} (all_matches : List α) (page : Nat) :
    List (Nat × α) :=
  (page_matches all_matches page).enumFrom
    ((page - 1) * matches_per_page + 1)

/-- Concatenating the 3-element chunks of a list, one per page, recovers
the list. -/
theorem pages_flatMap_aux {α : Type} :
    ∀ (n : Nat) (l : List α), l.length ≤ n →
      (List.range ((l.length + 2) / 3)).flatMap
        (fun i => (l.drop (i * 3)).take 3) = l := by
  intro n
  induction n with
  | zero =>
    intro l hl
    have h0 : l = [] := List.length_eq_zero.mp (Nat.le_zero.mp hl)
    subst h0
    simp
  | succ n ih =>
    intro l hl
    cases l with
    | nil => simp
    | cons a t =>
      have hlc : (a :: t).length = t.length + 1 := List.length_cons a t
      have hld : ((a :: t).drop 3).length = t.length + 1 - 3 := by
        rw [List.length_drop, hlc]
      rw [hlc] at hl
      have hq : ((a :: t).length + 2) / 3 =
          (((a :: t).drop 3).length + 2) / 3 + 1 := by
        rw [hlc, hld]
        omega
      rw [hq, List.range_succ_eq_map, List.flatMap_cons, List.flatMap_map]
      have hstep : ∀ i : Nat, ((a :: t).drop (Nat.succ i * 3)).take 3 =
          (((a :: t).drop 3).drop (i * 3)).take 3 := by
        intro i
        rw [List.drop_drop]
        have h33 : 3 + i * 3 = Nat.succ i * 3 := by omega
        rw [h33]
      simp only [hstep, Nat.zero_mul, List.drop_zero]
      rw [ih ((a :: t).drop 3) (by rw [hld]; omega)]
      exact List.take_append_drop 3 (a :: t)

/-- Claim C8: for every match list and every page `p` with
`1 ≤ p ≤ total_pages`, the displayed page is the slice of the full list
from `(p-1)*3` to `(p-1)*3+3`, its matches are numbered consecutively from
`(p-1)*3+1`, and concatenating the pages in order yields exactly the full
match list — nothing repeated or dropped. -/
theorem fixtures_pagination {α : Type} (all_matches : List α) (page : Nat)
    (h1 : 1 ≤ page) (h2 : page ≤ total_pages all_matches.length) :
    page_matches all_matches page =
      (all_matches.drop ((page - 1) * 3)).take 3 ∧
    (numbered_page all_matches page).map Prod.fst =
      List.range' ((page - 1) * 3 + 1) (page_matches all_matches page).length ∧
    (List.range (total_pages all_matches.length)).flatMap
        (fun i => page_matches all_matches (i + 1)) = all_matches := by
  refine ⟨rfl, ?_, ?_⟩
  · exact List.enumFrom_map_fst _ _
  · have h3 : total_pages all_matches.length =
        (all_matches.length + 2) / 3 := by
      simp [total_pages, matches_per_page]
    have hbody : ∀ i : Nat, page_matches all_matches (i + 1) =
        (all_matches.drop (i * 3)).take 3 := by
      intro i
      simp [page_matches, matches_per_page]
    rw [h3]
    simp only [hbody]
    exact pages_flatMap_aux all_matches.length all_matches (Nat.le_refl _)

/-- Claim C8 witness: a concrete 7-match list on page 2 of 3. -/
theorem fixtures_pagination_witness :
    page_matches [10, 20, 30, 40, 50, 60, 70] 2 =
      (([10, 20, 30, 40, 50, 60, 70] : List Nat).drop ((2 - 1) * 3)).take 3 ∧
    (numbered_page [10, 20, 30, 40, 50, 60, 70] 2).map Prod.fst =
      List.range' ((2 - 1) * 3 + 1)
        (page_matches [10, 20, 30, 40, 50, 60, 70] 2).length ∧
    (List.range (total_pages ([10, 20, 30, 40, 50, 60, 70] : List Nat).length)).flatMap
        (fun i => page_matches [10, 20, 30, 40, 50, 60, 70] (i + 1)) =
      [10, 20, 30, 40, 50, 60, 70] :=
  fixtures_pagination [10, 20, 30, 40, 50, 60, 70] 2 (by decide) (by decide)

/-! ## Claim C9: de-duplication in recent_results (`src/app.py`) -/

/-- From `src/app.py` (recent_results): a match record as consulted by the
assembly loop — its `id` (checked for duplicates) and the rest of its
payload. -/
structure MatchItem where
  id : Nat
  info : String
deriving Repr, DecidableEq

/-- From `src/app.py` (recent_results): append `match` to the collected
list only when no already-collected match has an equal `id`. -/
def add_if_new (acc : List MatchItem) (m : MatchItem) : List MatchItem :=
  if acc.any (fun e => e.id == m.id) then acc else acc ++ [m]

/-- From `src/app.py` (recent_results): assemble `all_matches` — the
latest result first when present, then the matches of each month group in
order, skipping duplicates. -/
def all_matches_results (latestResult : Option MatchItem)
    (items : List (List MatchItem)) : List MatchItem :=
  items.foldl (fun acc grp => grp.foldl add_if_new acc)
    (match latestResult with
     | some m => [m]
     | Option.none => [])

/-- Appending a checked match preserves pairwise-distinct ids. -/
theorem add_if_new_pairwise (acc : List MatchItem) (m : MatchItem)
    (h : acc.Pairwise (fun a b => a.id ≠ b.id)) :
    (add_if_new acc m).Pairwise (fun a b => a.id ≠ b.id) := by
  unfold add_if_new
  by_cases hany : acc.any (fun e => e.id == m.id) = true
  · rw [if_pos hany]
    exact h
  · rw [if_neg hany]
    rw [List.pairwise_append]
    refine ⟨h, List.pairwise_singleton _ _, ?_⟩
    intro a ha b hb
    rw [List.mem_singleton] at hb
    rw [hb]
    have hf : acc.any (fun e => e.id == m.id) = false :=
      Bool.eq_false_iff.mpr hany
    exact fun hid => (List.any_eq_false.mp hf a ha) (beq_iff_eq.mpr hid)

/-- Folding a month group over the duplicate check preserves
pairwise-distinct ids. -/
theorem foldl_add_if_new_pairwise (grp : List MatchItem) :
    ∀ acc, acc.Pairwise (fun a b => a.id ≠ b.id) →
      (grp.foldl add_if_new acc).Pairwise (fun a b => a.id ≠ b.id) := by
  induction grp with
  | nil => exact fun acc h => h
  | cons m grp ih =>
    intro acc h
    exact ih _ (add_if_new_pairwise acc m h)

/-- Folding all month groups preserves pairwise-distinct ids. -/
theorem foldl_groups_pairwise (items : List (List MatchItem)) :
    ∀ acc : List MatchItem, acc.Pairwise (fun a b => a.id ≠ b.id) →
      (items.foldl (fun acc grp => grp.foldl add_if_new acc) acc).Pairwise
        (fun a b => a.id ≠ b.id) := by
  induction items with
  | nil => exact fun acc h => h
  | cons grp items ih =>
    intro acc h
    exact ih _ (foldl_add_if_new_pairwise grp acc h)

/-- The assembly loop only ever appends: the collected list stays a left
part of the result. -/
theorem foldl_add_if_new_append (grp : List MatchItem) :
    ∀ acc, ∃ t, grp.foldl add_if_new acc = acc ++ t := by
  induction grp with
  | nil => exact fun acc => ⟨[], (List.append_nil acc).symm⟩
  | cons m grp ih =>
    intro acc
    obtain ⟨t, ht⟩ := ih (add_if_new acc m)
    rw [List.foldl_cons, ht]
    unfold add_if_new
    by_cases hany : acc.any (fun e => e.id == m.id) = true
    · exact ⟨t, by rw [if_pos hany]⟩
    · exact ⟨[m] ++ t, by rw [if_neg hany, List.append_assoc]⟩

/-- Folding all month groups only ever appends to the initial list. -/
theorem foldl_groups_append (items : List (List MatchItem)) :
    ∀ acc : List MatchItem, ∃ t,
      items.foldl (fun acc grp => grp.foldl add_if_new acc) acc = acc ++ t := by
  induction items with
  | nil => exact fun acc => ⟨[], (List.append_nil acc).symm⟩
  | cons grp items ih =>
    intro acc
    obtain ⟨t1, ht1⟩ := foldl_add_if_new_append grp acc
    obtain ⟨t2, ht2⟩ := ih (grp.foldl add_if_new acc)
    rw [List.foldl_cons, ht2, ht1, List.append_assoc]
    exact ⟨t1 ++ t2, rfl⟩

/-- Claim C9: the assembled match list of recent_results contains no two
matches with the same `id`; the latest result (when present) is placed
first, and every further match was appended only after the duplicate
check. -/
theorem recent_results_dedup (latestResult : Option MatchItem)
    (items : List (List MatchItem)) :
    (all_matches_results latestResult items).Pairwise
      (fun a b => a.id ≠ b.id) ∧
    ∀ m, latestResult = some m →
      (all_matches_results latestResult items).head? = some m := by
  constructor
  · unfold all_matches_results
    apply foldl_groups_pairwise
    cases latestResult with
    | none => exact List.Pairwise.nil
    | some m => exact List.pairwise_singleton _ _
  · intro m hm
    subst hm
    unfold all_matches_results
    obtain ⟨t, ht⟩ := foldl_groups_append items [m]
    rw [ht]
    rfl

/-- Claim C9 witness: a latest result duplicated inside the month groups
is not repeated, and it stays first. -/
theorem recent_results_dedup_witness :
    (all_matches_results (some (MatchItem.mk 1 "latest"))
        [[MatchItem.mk 1 "dup", MatchItem.mk 2 "b"]]).Pairwise
      (fun a b => a.id ≠ b.id) ∧
    (all_matches_results (some (MatchItem.mk 1 "latest"))
        [[MatchItem.mk 1 "dup", MatchItem.mk 2 "b"]]).head? =
      some (MatchItem.mk 1 "latest") :=
  ⟨(recent_results_dedup (some (MatchItem.mk 1 "latest"))
      [[MatchItem.mk 1 "dup", MatchItem.mk 2 "b"]]).1,
   (recent_results_dedup (some (MatchItem.mk 1 "latest"))
      [[MatchItem.mk 1 "dup", MatchItem.mk 2 "b"]]).2
     (MatchItem.mk 1 "latest") rfl⟩

/-! ## Claim C10: the result icon of recent_results (`src/app.py`) -/

/-- From `src/app.py` (recent_results): the three result icons (green =
win, yellow = draw, red = loss). -/
inductive ResultIcon where
  | green
  | yellow
  | red
deriving Repr, DecidableEq

/-- From `src/app.py` (recent_results): the icon computed from
`isHomeFixture` and the two scores, exactly as the nested conditionals of
the source. -/
def result_icon (isHomeFixture : Bool) (home_score away_score : Nat) :
    ResultIcon :=
  if isHomeFixture then
    if home_score > away_score then ResultIcon.green
    else if home_score == away_score then ResultIcon.yellow
    else ResultIcon.red
  else
    if away_score > home_score then ResultIcon.green
    else if away_score == home_score then ResultIcon.yellow
    else ResultIcon.red

/-- Chelsea's score as the claim words it: the home score of a home
fixture, the away score otherwise. -/
def chelsea_score (isHomeFixture : Bool) (home_score away_score : Nat) :
    Nat :=
  if isHomeFixture then home_score else away_score

/-- The opponent's score as the claim words it. -/
def opponent_score (isHomeFixture : Bool) (home_score away_score : Nat) :
    Nat :=
  if isHomeFixture then away_score else home_score

/-- Claim C10: the result icon depends solely on the comparison of
Chelsea's score with the opponent's score, regardless of home or away:
green when strictly greater, yellow when equal, red when strictly less. -/
theorem result_icon_by_comparison (isHomeFixture : Bool)
    (home_score away_score : Nat) :
    result_icon isHomeFixture home_score away_score =
      (if chelsea_score isHomeFixture home_score away_score >
            opponent_score isHomeFixture home_score away_score then
         ResultIcon.green
       else if chelsea_score isHomeFixture home_score away_score =
            opponent_score isHomeFixture home_score away_score then
         ResultIcon.yellow
       else ResultIcon.red) := by
  cases isHomeFixture <;>
    simp [result_icon, chelsea_score, opponent_score]
